import Mathlib

/-!
Shallow embedding of the accelerator weigher
(`nova/scheduler/weights/accelerator.py`): group-based RC+traits scoring
with the `sum-fit` and `product-fit` policies.

Modelling conventions:
* Python floats are modelled as `ℚ` (all constants involved, including
  `EPS = 1e-6`, are exact rationals).
* The `UNMET_FLOOR = float("-inf")` sentinel returned by `_group_slack`
  is modelled by the dedicated constructor `SlackVal.unmet`; the final
  score is a `Score`, whose `Score.unmet` constructor models returning
  `UNMET_FLOOR` from `_weigh_object`.
* Python dicts are modelled as `String`-indexed partial functions
  (`Option`-valued); a missing key is `none`.  `inventory.get(rc)`
  being falsy (absent key, or a degenerate empty inventory dict) is
  modelled as `none`.  `inventory.get("total", 0)` /
  `inventory.get("reserved", 0)` defaults are folded into the
  `Inventory` record fields.
* `usages_dict.get(rp_uuid, {}).get(rc_name, 0)` is modelled by
  `usedOf`, an `Option`-valued two-argument map with default `0`.
* A `try/except ValueError` around `ptree.data(uuid)` is modelled by
  the lookup being `Option`-valued.
-/

namespace AccelWeigher

/-- `EPS = 1e-6`, the epsilon stabilising constant of `_group_product`. -/
def EPS : ℚ := 1 / 1000000

/-- One resource-class inventory record of a provider:
`{total: ..., reserved: ...}` (missing keys default to `0` in the source
via `inventory.get("total", 0)`, folded into the fields here). -/
structure Inventory where
  total : ℚ
  reserved : ℚ
deriving DecidableEq, Repr

/-- The per-provider data exposed by `ptree.data(uuid)`: resource-class
inventories and the trait set. -/
structure ProviderData where
  inventory : String → Option Inventory
  traits : List String

/-- A provider tree snapshot: the provider uuids returned by
`get_provider_uuids_in_tree(root)` and the per-uuid data map
(`ptree.data`, raising `ValueError` = `none` for unknown uuids). -/
structure PTree where
  uuids : List String
  data : String → Option ProviderData

/-- The usage map collected by `_get_provider_tree_and_usages`:
`rp_uuid -> {rc: usage}`; both levels may miss a key. -/
def Usages : Type := String → String → Option ℚ

/-- `usages_dict.get(rp_uuid, {}).get(rc_name, 0)`. -/
def usedOf (us : Usages) (rp rc : String) : ℚ :=
  (us rp rc).getD 0

/-- `ptree.get_provider_uuids_in_tree(root_uuid)`: the uuid list when the
root is in the tree, `ValueError` (= `none`) otherwise. -/
def getProviderUuidsInTree (t : PTree) (root : String) : Option (List String) :=
  if t.uuids.contains root then some t.uuids else none

/-- `_get_free_for_rc_from_tree`: free units for a resource class on one
provider, `max(total - reserved - used, 0)`; `0.0` when the provider is
not in the tree or has no inventory entry for the class. -/
def getFreeForRcFromTree (t : PTree) (rp rc : String) (us : Usages) : ℚ :=
  match t.data rp with
  | none => 0
  | some pd =>
    match pd.inventory rc with
    | none => 0
    | some inv =>
      let free := inv.total - inv.reserved - usedOf us rp rc
      if 0 < free then free else 0

/-- `required_traits.issubset(prov_data.traits)`. -/
def traitsSubset (req : List String) (avail : List String) : Bool :=
  req.all fun tr => avail.contains tr

/-- The contribution of one provider to the accumulator of
`_sum_free_for_rc_with_traits`'s loop: `0` at every `continue`
(root uuid, unknown uuid, no inventory entry for the class, unsatisfied
required traits, non-positive free), otherwise the free units. -/
def provContrib (t : PTree) (root rc : String) (reqTraits : List String)
    (us : Usages) (rp : String) : ℚ :=
  if rp = root then 0
  else
    match t.data rp with
    | none => 0
    | some pd =>
      if (pd.inventory rc).isNone then 0
      else if !reqTraits.isEmpty && !traitsSubset reqTraits pd.traits then 0
      else
        let free := getFreeForRcFromTree t rp rc us
        if 0 < free then free else 0

/-- `_sum_free_for_rc_with_traits`: total free units for
(resource class, required traits) across the tree; `0.0` when the root is
not found.  The accumulating loop is embedded as the sum of the
per-provider contributions. -/
def sumFreeForRcWithTraits (t : PTree) (root rc : String)
    (reqTraits : List String) (us : Usages) : ℚ :=
  match getProviderUuidsInTree t root with
  | none => 0
  | some l => (l.map (provContrib t root rc reqTraits us)).sum

/-- A Python value appearing as an amount in a request group's
`resources` dict, as seen by `int(amount)` in `_extract_accel_groups`:
a Python `int` (or a numeric string, which `int` parses), a Python
`float` (which `int` truncates toward zero — `ofFloat` carries the
truncated value), or a value on which `int()` raises
`ValueError`/`TypeError`. -/
inductive Amount where
  | ofInt (n : ℤ)
  | ofFloat (trunc : ℤ)
  | invalid
deriving DecidableEq, Repr

/-- `int(amount)`: `none` models the `(ValueError, TypeError)` branch. -/
def amountToInt : Amount → Option ℤ
  | .ofInt n => some n
  | .ofFloat t => some t
  | .invalid => none

/-- A raw `RequestGroup`: its `resources` dict (in insertion order) and
its `required_traits` set. -/
structure RawGroup where
  resources : List (String × Amount)
  required_traits : List String
deriving DecidableEq, Repr

/-- An extracted accelerator group: `(accel_resources, req_traits)` with
integer amounts. -/
structure DemandGroup where
  resources : List (String × ℤ)
  required_traits : List String
deriving DecidableEq, Repr

/-- The inner loop of `_extract_accel_groups` building `accel_resources`:
keep an entry when the class name matches `rc_regex` and `int(amount)`
succeeds; entries failing the regex are skipped and entries raising
`ValueError`/`TypeError` are skipped (and counted in the stats). -/
def extractGroupResources (pred : String → Bool)
    (res : List (String × Amount)) : List (String × ℤ) :=
  res.filterMap fun p =>
    if pred p.1 then (amountToInt p.2).map fun n => (p.1, n) else none

/-- The diagnostic counter `stats["invalid_amounts"]` for one group:
entries whose class matches but whose amount raises on `int()`. -/
def invalidAmountCount (pred : String → Bool)
    (res : List (String × Amount)) : ℕ :=
  res.countP fun p => pred p.1 && (amountToInt p.2).isNone

/-- `_extract_accel_groups`: keep a group iff its filtered
`accel_resources` is non-empty (`if accel_resources:`), preserving
order. -/
def extractAccelGroups (pred : String → Bool)
    (raws : List RawGroup) : List DemandGroup :=
  raws.filterMap fun g =>
    let accel := extractGroupResources pred g.resources
    if accel.isEmpty then none else some ⟨accel, g.required_traits⟩

/-- The default `rc_pattern` regex
`(?i)^(CUSTOM_)?(FPGA|PGPU|VGPU|QAT|NIC|SSD|AICHIP)$` as a predicate on
the class name's character list: case-insensitivity via per-character
upper-casing, then an optional `CUSTOM_` prefix followed by exactly one
of the listed alternatives (the whole name anchored by `^...$`). -/
def rcPatternMatch (rc : String) : Bool :=
  let s := rc.data.map Char.toUpper
  let base := if s.take 7 = "CUSTOM_".data then s.drop 7 else s
  ["FPGA", "PGPU", "VGPU", "QAT", "NIC", "SSD", "AICHIP"].any
    fun t => t.data == base

/-- The `UNMET_FLOOR = float("-inf")` sentinel as the value of
`_group_slack`: `unmet` models `-inf`, `fin q` a finite float. -/
inductive SlackVal where
  | unmet
  | fin (q : ℚ)
deriving DecidableEq, Repr

/-- The finite sum of per-class slacks of `_group_slack`'s loop:
`sum(free_total - amount for each rc)`. -/
def slackSum (t : PTree) (root : String) (res : List (String × ℤ))
    (reqTraits : List String) (us : Usages) : ℚ :=
  (res.map fun p =>
    sumFreeForRcWithTraits t root p.1 reqTraits us - (p.2 : ℚ)).sum

/-- `_group_slack`: the list of per-class slacks, `UNMET_FLOOR` when it
is empty (`if not slacks`), otherwise its sum. -/
def groupSlack (t : PTree) (root : String) (res : List (String × ℤ))
    (reqTraits : List String) (us : Usages) : SlackVal :=
  let slacks := res.map fun p =>
    sumFreeForRcWithTraits t root p.1 reqTraits us - (p.2 : ℚ)
  if slacks.isEmpty then .unmet else .fin slacks.sum

/-- The loop of `_group_product` with its accumulator `prod` (initially
`1.0`): an early `return 0.0` as soon as one class's slack is negative,
otherwise `prod *= (slack + EPS)`. -/
def groupProductGo (t : PTree) (root : String) (reqTraits : List String)
    (us : Usages) : List (String × ℤ) → ℚ → ℚ
  | [], prod => prod
  | p :: rest, prod =>
    let slack := sumFreeForRcWithTraits t root p.1 reqTraits us - (p.2 : ℚ)
    if slack < 0 then 0
    else groupProductGo t root reqTraits us rest (prod * (slack + EPS))

/-- `_group_product`: product of `(slack + EPS)` over the group's
classes, `0.0` if any class's slack is negative. -/
def groupProduct (t : PTree) (root : String) (res : List (String × ℤ))
    (reqTraits : List String) (us : Usages) : ℚ :=
  groupProductGo t root reqTraits us res 1

/-- The scoring policy config option (`sum-fit` | `product-fit`).  The
source's membership test `policy in ("sum-fit")` is a substring test
that, over the two admissible option values, coincides with equality to
`"sum-fit"`. -/
inductive Policy where
  | sumFit
  | productFit
deriving DecidableEq, Repr

/-- The value returned by `_weigh_object`: the `UNMET_FLOOR` sentinel or
a finite float. -/
inductive Score where
  | unmet
  | val (q : ℚ)
deriving DecidableEq, Repr

/-- The generator filter `sum(gs for gs in group_slacks if gs > 0)`:
`-inf > 0` is false, so an `unmet` slack is filtered out, and a finite
slack is kept iff it is positive. -/
def slackPosVal : SlackVal → Option ℚ
  | .unmet => none
  | .fin q => if 0 < q then some q else none

/-- Detection of `any(gs == UNMET_FLOOR for gs in group_slacks)`. -/
def slackIsUnmet : SlackVal → Bool
  | .unmet => true
  | .fin _ => false

/-- `AcceleratorWeigher._weigh_object`.  Inputs that the source obtains
by I/O are passed as values: `rootOpt` is the result of
`_lookup_root_rp_uuid` (`none` when it returns a falsy uuid), `raws` is
`weight_properties.requested_resources`, `pred` the compiled
`rc_pattern` regex, and `fetch` the `(ptree, usages_dict)` pair of
`_get_provider_tree_and_usages` (`none` when the tree is falsy).  The
final multiplier is applied outside `_weigh_object` by the framework and
is not part of this function. -/
def weighObject (rootOpt : Option String) (raws : List RawGroup)
    (pred : String → Bool) (fetch : Option (PTree × Usages))
    (policy : Policy) : Score :=
  match rootOpt with
  | none => .val 0
  | some root =>
    let groups := extractAccelGroups pred raws
    if groups.isEmpty then .val 0
    else
      match fetch with
      | none => .val 0
      | some (t, us) =>
        let slacks := groups.map fun g =>
          groupSlack t root g.resources g.required_traits us
        let prods := groups.map fun g =>
          groupProduct t root g.resources g.required_traits us
        if slacks.any slackIsUnmet then .unmet
        else
          match policy with
          | .sumFit => .val (slacks.filterMap slackPosVal).sum
          | .productFit => .val prods.sum

/-- A concrete one-provider tree (the spec's first concrete scenario)
used to instantiate hypothesised theorems on closed inputs: one child
provider with `AICHIP: {total: 4, reserved: 0}`, usage `{AICHIP: 1}`,
traits `{"CUSTOM_FURIOSA_0000"}`. -/
def wInv : Inventory := ⟨4, 0⟩

def wPd : ProviderData :=
  ⟨fun rc => if rc = "AICHIP" then some wInv else none,
   ["CUSTOM_FURIOSA_0000"]⟩

def wPdRoot : ProviderData := ⟨fun _ => none, []⟩

def wData : String → Option ProviderData := fun u =>
  if u = "rp1" then some wPd
  else if u = "root" then some wPdRoot
  else none

def wTree : PTree := ⟨["root", "rp1"], wData⟩

def wUsages : Usages := fun rp rc =>
  if rp = "rp1" ∧ rc = "AICHIP" then some 1 else none

/-- The single demand group of the spec's first concrete scenario:
`{resources: {AICHIP: 2}, required_traits: {"CUSTOM_FURIOSA_0000"}}`. -/
def wRaws : List RawGroup :=
  [⟨[("AICHIP", Amount.ofInt 2)], ["CUSTOM_FURIOSA_0000"]⟩]

/-- The predicate "this provider is summed by
`_sum_free_for_rc_with_traits`": a non-root provider, present in the
tree, holding an inventory entry for the class, and satisfying every
required trait. -/
def qualifiesForRc (t : PTree) (root rc : String) (req : List String)
    (u : String) : Bool :=
  if u = root then false
  else
    match t.data u with
    | none => false
    | some pd =>
      (pd.inventory rc).isSome && (req.isEmpty || traitsSubset req pd.traits)

/-- A two-group instance with one satisfiable and one unsatisfiable
group: one provider with `FPGA: {total: 10, reserved: 0}` and no usage. -/
def cInv : Inventory := ⟨10, 0⟩

def cPd : ProviderData :=
  ⟨fun rc => if rc = "FPGA" then some cInv else none, []⟩

def cTree : PTree :=
  ⟨["root", "rp1"], fun u =>
    if u = "rp1" then some cPd
    else if u = "root" then some wPdRoot
    else none⟩

def cUsages : Usages := fun _ _ => none

/-- Two raw groups: `{FPGA: 5}` (slack `5`) and `{FPGA: 13}`
(slack `-3`, so its group product is `0`). -/
def cRaws : List RawGroup :=
  [⟨[("FPGA", Amount.ofInt 5)], []⟩, ⟨[("FPGA", Amount.ofInt 13)], []⟩]

/-- A pair of trees differing only in one provider's total for one
class, used to instantiate the monotonicity theorem: `t6` has
`FPGA: {total: 2, reserved: 0}`, `t6s` raises the total to `3`. -/
def inv6 : Inventory := ⟨2, 0⟩

def inv6s : Inventory := ⟨3, 0⟩

def pd6 : ProviderData :=
  ⟨fun rc => if rc = "FPGA" then some inv6 else none, []⟩

def pd6s : ProviderData :=
  ⟨fun rc => if rc = "FPGA" then some inv6s else none, []⟩

def pdRoot6 : ProviderData := ⟨fun _ => none, []⟩

def t6 : PTree :=
  ⟨["root", "rp1"], fun u =>
    if u = "rp1" then some pd6
    else if u = "root" then some pdRoot6
    else none⟩

def t6s : PTree :=
  ⟨["root", "rp1"], fun u =>
    if u = "rp1" then some pd6s
    else if u = "root" then some pdRoot6
    else none⟩

def us6 : Usages := fun _ _ => none

theorem getFree_eq_of_found (t : PTree) (rp rc : String) (us : Usages)
    (pd : ProviderData) (inv : Inventory)
    (hd : t.data rp = some pd) (hi : pd.inventory rc = some inv) :
    getFreeForRcFromTree t rp rc us
      = if 0 < inv.total - inv.reserved - usedOf us rp rc
        then inv.total - inv.reserved - usedOf us rp rc else 0 := by
  simp only [getFreeForRcFromTree, hd, hi]

theorem getFree_eq_of_no_data (t : PTree) (rp rc : String) (us : Usages)
    (hd : t.data rp = none) : getFreeForRcFromTree t rp rc us = 0 := by
  simp only [getFreeForRcFromTree, hd]

theorem getFree_eq_of_no_inv (t : PTree) (rp rc : String) (us : Usages)
    (pd : ProviderData) (hd : t.data rp = some pd)
    (hi : pd.inventory rc = none) : getFreeForRcFromTree t rp rc us = 0 := by
  simp only [getFreeForRcFromTree, hd, hi]

theorem getFree_nonneg (t : PTree) (rp rc : String) (us : Usages) :
    0 ≤ getFreeForRcFromTree t rp rc us := by
  rcases hd : t.data rp with _ | pd
  · rw [getFree_eq_of_no_data t rp rc us hd]
  · rcases hi : pd.inventory rc with _ | inv
    · rw [getFree_eq_of_no_inv t rp rc us pd hd hi]
    · rw [getFree_eq_of_found t rp rc us pd inv hd hi]
      split
      · linarith
      · exact le_refl (0 : ℚ)

/-- Claim C4: for a provider present in the tree with an inventory entry
for the class, the free-units computation returns
`max(total - reserved - used, 0)` with `used` defaulting to `0` when the
class is absent from the provider's usage map; and for every provider and
class the result is never negative. -/
theorem free_units_clamped (t : PTree) (rp rc : String) (us : Usages)
    (pd : ProviderData) (inv : Inventory)
    (hd : t.data rp = some pd) (hi : pd.inventory rc = some inv) :
    getFreeForRcFromTree t rp rc us
      = max (inv.total - inv.reserved - usedOf us rp rc) 0
    ∧ ∀ rp' rc' : String, 0 ≤ getFreeForRcFromTree t rp' rc' us := by
  constructor
  · rw [getFree_eq_of_found t rp rc us pd inv hd hi]
    rcases lt_or_ge 0 (inv.total - inv.reserved - usedOf us rp rc) with h | h
    · rw [if_pos h, max_eq_left (le_of_lt h)]
    · rw [if_neg (not_lt.mpr h), max_eq_right h]
  · intro rp' rc'
    exact getFree_nonneg t rp' rc' us

theorem free_units_clamped_witness :
    getFreeForRcFromTree wTree "rp1" "AICHIP" wUsages
      = max (wInv.total - wInv.reserved - usedOf wUsages "rp1" "AICHIP") 0
    ∧ ∀ rp' rc' : String, 0 ≤ getFreeForRcFromTree wTree rp' rc' wUsages :=
  free_units_clamped wTree "rp1" "AICHIP" wUsages _ wInv (by rfl) (by rfl)

/-- Claim C10: the per-provider free-units computation is total and
returns `0.0` (rather than propagating an error) when the provider id is
absent from the tree or the provider has no inventory entry for the
requested resource class. -/
theorem free_units_total_on_missing (t : PTree) (rp rc : String) (us : Usages) :
    (t.data rp = none → getFreeForRcFromTree t rp rc us = 0)
    ∧ (∀ pd, t.data rp = some pd → pd.inventory rc = none →
        getFreeForRcFromTree t rp rc us = 0) := by
  constructor
  · intro h
    exact getFree_eq_of_no_data t rp rc us h
  · intro pd hd hi
    exact getFree_eq_of_no_inv t rp rc us pd hd hi

theorem free_units_total_on_missing_witness :
    getFreeForRcFromTree wTree "ghost" "AICHIP" wUsages = 0
    ∧ getFreeForRcFromTree wTree "rp1" "VGPU" wUsages = 0 :=
  ⟨(free_units_total_on_missing wTree "ghost" "AICHIP" wUsages).1 (by rfl),
   (free_units_total_on_missing wTree "rp1" "VGPU" wUsages).2 _ (by rfl) (by rfl)⟩

theorem provContrib_eq_zero_root (t : PTree) (root rc : String)
    (req : List String) (us : Usages) :
    provContrib t root rc req us root = 0 := by
  simp [provContrib]

theorem provContrib_eq_zero_no_data (t : PTree) (root rc : String)
    (req : List String) (us : Usages) (rp : String)
    (hne : rp ≠ root) (hd : t.data rp = none) :
    provContrib t root rc req us rp = 0 := by
  simp only [provContrib, if_neg hne, hd]

theorem provContrib_eq_zero_traits (t : PTree) (root rc : String)
    (req : List String) (us : Usages) (rp : String) (pd : ProviderData)
    (hne : rp ≠ root) (hd : t.data rp = some pd)
    (htr : (!req.isEmpty && !traitsSubset req pd.traits) = true) :
    provContrib t root rc req us rp = 0 := by
  simp only [provContrib, if_neg hne, hd]
  rcases hinv : pd.inventory rc with _ | inv
  · simp
  · simp [hinv, htr]

theorem provContrib_eq_getFree (t : PTree) (root rc : String)
    (req : List String) (us : Usages) (rp : String) (pd : ProviderData)
    (hne : rp ≠ root) (hd : t.data rp = some pd)
    (htr : (!req.isEmpty && !traitsSubset req pd.traits) = false) :
    provContrib t root rc req us rp = getFreeForRcFromTree t rp rc us := by
  simp only [provContrib, if_neg hne, hd]
  rcases hinv : pd.inventory rc with _ | inv
  · simp only [Option.isNone_none, if_pos]
    exact (getFree_eq_of_no_inv t rp rc us pd hd hinv).symm
  · simp only [Option.isNone_some, Bool.false_eq_true, if_false, htr]
    rcases lt_or_ge 0 (getFreeForRcFromTree t rp rc us) with h | h
    · rw [if_pos h]
    · rw [if_neg (not_lt.mpr h)]
      exact (le_antisymm h (getFree_nonneg t rp rc us)).symm

theorem provContrib_nonneg (t : PTree) (root rc : String)
    (req : List String) (us : Usages) (rp : String) :
    0 ≤ provContrib t root rc req us rp := by
  by_cases hne : rp = root
  · subst hne; rw [provContrib_eq_zero_root]
  · rcases hd : t.data rp with _ | pd
    · rw [provContrib_eq_zero_no_data t root rc req us rp hne hd]
    · rcases htr : (!req.isEmpty && !traitsSubset req pd.traits) with _ | _
      · rw [provContrib_eq_getFree t root rc req us rp pd hne hd htr]
        exact getFree_nonneg t rp rc us
      · rw [provContrib_eq_zero_traits t root rc req us rp pd hne hd htr]

theorem sumFree_eq_of_root (t : PTree) (root rc : String)
    (req : List String) (us : Usages) (h : t.uuids.contains root = true) :
    sumFreeForRcWithTraits t root rc req us
      = (t.uuids.map (provContrib t root rc req us)).sum := by
  simp only [sumFreeForRcWithTraits, getProviderUuidsInTree, h, if_pos]

theorem sumFree_eq_zero_of_no_root (t : PTree) (root rc : String)
    (req : List String) (us : Usages) (h : ¬t.uuids.contains root = true) :
    sumFreeForRcWithTraits t root rc req us = 0 := by
  simp only [sumFreeForRcWithTraits, getProviderUuidsInTree, h, if_neg,
    Bool.false_eq_true, if_false]

theorem sumFree_nonneg (t : PTree) (root rc : String)
    (req : List String) (us : Usages) :
    0 ≤ sumFreeForRcWithTraits t root rc req us := by
  by_cases h : t.uuids.contains root = true
  · rw [sumFree_eq_of_root t root rc req us h]
    exact List.sum_nonneg fun x hx => by
      rcases List.mem_map.mp hx with ⟨u, _, rfl⟩
      exact provContrib_nonneg t root rc req us u
  · rw [sumFree_eq_zero_of_no_root t root rc req us h]

theorem groupProductGo_nonneg (t : PTree) (root : String)
    (req : List String) (us : Usages) (res : List (String × ℤ)) :
    ∀ prod : ℚ, 0 ≤ prod → 0 ≤ groupProductGo t root req us res prod := by
  induction res with
  | nil => intro prod h; exact h
  | cons p rest ih =>
    intro prod h
    unfold groupProductGo
    simp only
    split
    · exact le_refl 0
    · rename_i hslack
      refine ih _ (mul_nonneg h ?_)
      have h0 : 0 ≤ sumFreeForRcWithTraits t root p.1 req us - (p.2 : ℚ) :=
        not_lt.mp hslack
      have hEPS : (0 : ℚ) ≤ EPS := by norm_num [EPS]
      linarith

theorem groupProduct_nonneg (t : PTree) (root : String)
    (res : List (String × ℤ)) (req : List String) (us : Usages) :
    0 ≤ groupProduct t root res req us :=
  groupProductGo_nonneg t root req us res 1 (by norm_num)

theorem groupSlack_eq_fin (t : PTree) (root : String)
    (res : List (String × ℤ)) (req : List String) (us : Usages)
    (h : res ≠ []) :
    groupSlack t root res req us = .fin (slackSum t root res req us) := by
  unfold groupSlack slackSum
  rw [if_neg]
  simp [List.isEmpty_iff, h]

theorem mem_extractGroupResources (pred : String → Bool)
    (res : List (String × Amount)) (rc : String) (n : ℤ) :
    (rc, n) ∈ extractGroupResources pred res
      ↔ pred rc = true ∧ ∃ a, (rc, a) ∈ res ∧ amountToInt a = some n := by
  unfold extractGroupResources
  rw [List.mem_filterMap]
  constructor
  · rintro ⟨⟨rc', a⟩, hmem, hf⟩
    by_cases hp : pred rc' = true
    · rw [if_pos hp] at hf
      rcases Option.map_eq_some'.mp hf with ⟨m, hm, heq⟩
      obtain ⟨h1, h2⟩ := Prod.mk.injEq .. ▸ heq
      cases heq
      exact ⟨hp, a, hmem, hm⟩
    · rw [if_neg hp] at hf
      cases hf
  · rintro ⟨hp, a, hmem, ha⟩
    exact ⟨(rc, a), hmem, by simp [hp, ha]⟩

theorem mem_extractAccelGroups (pred : String → Bool)
    (raws : List RawGroup) (g : DemandGroup)
    (h : g ∈ extractAccelGroups pred raws) :
    ∃ raw ∈ raws, g.resources = extractGroupResources pred raw.resources
      ∧ g.required_traits = raw.required_traits ∧ g.resources ≠ [] := by
  unfold extractAccelGroups at h
  rcases List.mem_filterMap.mp h with ⟨raw, hmem, hf⟩
  by_cases he : (extractGroupResources pred raw.resources).isEmpty = true
  · rw [if_pos he] at hf; cases hf
  · rw [if_neg he] at hf
    cases hf
    exact ⟨raw, hmem, rfl, rfl, by simpa [List.isEmpty_iff] using he⟩

theorem extract_resources_ne_nil (pred : String → Bool)
    (raws : List RawGroup) (g : DemandGroup)
    (h : g ∈ extractAccelGroups pred raws) : g.resources ≠ [] :=
  (mem_extractAccelGroups pred raws g h).choose_spec.2.2.2

theorem getFree_congr_parts (t ts : PTree) (rp rc : String)
    (us uss : Usages) (pd pds : ProviderData)
    (hp : t.data rp = some pd) (hps : ts.data rp = some pds)
    (hinv : pds.inventory rc = pd.inventory rc)
    (hus : usedOf uss rp rc = usedOf us rp rc) :
    getFreeForRcFromTree ts rp rc uss = getFreeForRcFromTree t rp rc us := by
  simp only [getFreeForRcFromTree, hp, hps, hinv, hus]

theorem provContrib_congr_parts (t ts : PTree) (root rp rc : String)
    (req : List String) (us uss : Usages) (pd pds : ProviderData)
    (hp : t.data rp = some pd) (hps : ts.data rp = some pds)
    (htr : pds.traits = pd.traits)
    (hinv : pds.inventory rc = pd.inventory rc)
    (hus : usedOf uss rp rc = usedOf us rp rc) :
    provContrib ts root rc req uss rp = provContrib t root rc req us rp := by
  simp only [provContrib, hp, hps, hinv, htr,
    getFree_congr_parts t ts rp rc us uss pd pds hp hps hinv hus]

theorem provContrib_congr (t ts : PTree) (root rp rc : String)
    (req : List String) (us uss : Usages)
    (hd : ts.data rp = t.data rp) (hus : usedOf uss rp rc = usedOf us rp rc) :
    provContrib ts root rc req uss rp = provContrib t root rc req us rp := by
  unfold provContrib
  rw [hd]
  have hfree : getFreeForRcFromTree ts rp rc uss
      = getFreeForRcFromTree t rp rc us := by
    unfold getFreeForRcFromTree
    rw [hd, hus]
  rw [hfree]

theorem provContrib_eq_qualifies (t : PTree) (root rc : String)
    (req : List String) (us : Usages) (u : String) :
    provContrib t root rc req us u
      = if qualifiesForRc t root rc req u
        then getFreeForRcFromTree t u rc us else 0 := by
  by_cases hur : u = root
  · simp [qualifiesForRc, hur, provContrib_eq_zero_root]
  · rcases hd : t.data u with _ | pd
    · rw [provContrib_eq_zero_no_data t root rc req us u hur hd]
      simp [qualifiesForRc, hur, hd]
    · rcases htrb : (!req.isEmpty && !traitsSubset req pd.traits) with _ | _
      · rw [provContrib_eq_getFree t root rc req us u pd hur hd htrb]
        have hor : (req.isEmpty || traitsSubset req pd.traits) = true := by
          cases hE : req.isEmpty <;>
            cases hS : traitsSubset req pd.traits <;> simp_all
        have hq : qualifiesForRc t root rc req u
            = (pd.inventory rc).isSome := by
          simp only [qualifiesForRc, if_neg hur, hd, hor, Bool.and_true]
        rcases hinv : pd.inventory rc with _ | inv
        · rw [getFree_eq_of_no_inv t u rc us pd hd hinv]
          simp [hq, hinv]
        · simp [hq, hinv]
      · rw [provContrib_eq_zero_traits t root rc req us u pd hur hd htrb]
        have hES : req.isEmpty = false ∧ traitsSubset req pd.traits = false := by
          cases hE : req.isEmpty <;>
            cases hS : traitsSubset req pd.traits <;> simp_all
        have hq : qualifiesForRc t root rc req u = false := by
          simp [qualifiesForRc, if_neg hur, hd, hES.1, hES.2]
        simp [hq]

theorem sum_contrib_eq_filter (t : PTree) (root rc : String)
    (req : List String) (us : Usages) :
    ∀ l : List String,
      (l.map (provContrib t root rc req us)).sum
        = ((l.filter (qualifiesForRc t root rc req)).map
            fun u => getFreeForRcFromTree t u rc us).sum := by
  intro l
  induction l with
  | nil => rfl
  | cons u rest ih =>
    simp only [List.map_cons, List.sum_cons, List.filter_cons]
    rw [provContrib_eq_qualifies t root rc req us u]
    by_cases hq : qualifiesForRc t root rc req u = true
    · simp [hq, ih]
    · simp [Bool.not_eq_true .. ▸ hq, ih]

theorem weighObject_none (raws : List RawGroup) (pred : String → Bool)
    (fetch : Option (PTree × Usages)) (policy : Policy) :
    weighObject none raws pred fetch policy = .val 0 := rfl

theorem weighObject_no_groups (root : String) (raws : List RawGroup)
    (pred : String → Bool) (fetch : Option (PTree × Usages))
    (policy : Policy) (h : extractAccelGroups pred raws = []) :
    weighObject (some root) raws pred fetch policy = .val 0 := by
  simp [weighObject, h]

theorem weighObject_no_fetch (root : String) (raws : List RawGroup)
    (pred : String → Bool) (policy : Policy) :
    weighObject (some root) raws pred none policy = .val 0 := by
  by_cases h : (extractAccelGroups pred raws).isEmpty = true
  · simp [weighObject, h]
  · simp [weighObject, h]

theorem groupSlack_not_unmet_of_extracted (pred : String → Bool)
    (raws : List RawGroup) (g : DemandGroup)
    (hg : g ∈ extractAccelGroups pred raws) (t : PTree) (root : String)
    (us : Usages) :
    groupSlack t root g.resources g.required_traits us ≠ SlackVal.unmet := by
  rw [groupSlack_eq_fin t root g.resources g.required_traits us
    (extract_resources_ne_nil pred raws g hg)]
  intro h
  cases h

theorem slacks_any_unmet_false (pred : String → Bool)
    (raws : List RawGroup) (t : PTree) (root : String) (us : Usages) :
    ((extractAccelGroups pred raws).map fun g =>
        groupSlack t root g.resources g.required_traits us).any slackIsUnmet
      = false := by
  rw [List.any_eq_false]
  intro s hs
  rcases List.mem_map.mp hs with ⟨g, hg, rfl⟩
  rw [groupSlack_eq_fin t root g.resources g.required_traits us
    (extract_resources_ne_nil pred raws g hg)]
  simp [slackIsUnmet]

theorem weighObject_productFit (root : String) (raws : List RawGroup)
    (pred : String → Bool) (t : PTree) (us : Usages)
    (h : extractAccelGroups pred raws ≠ []) :
    weighObject (some root) raws pred (some (t, us)) .productFit
      = .val (((extractAccelGroups pred raws).map fun g =>
          groupProduct t root g.resources g.required_traits us).sum) := by
  simp only [weighObject, List.isEmpty_iff, h, if_false,
    slacks_any_unmet_false pred raws t root us, Bool.false_eq_true]

theorem filterMap_slackPos (t : PTree) (root : String) (us : Usages) :
    ∀ l : List DemandGroup, (∀ g ∈ l, g.resources ≠ []) →
      ((l.map fun g =>
          groupSlack t root g.resources g.required_traits us).filterMap
        slackPosVal)
        = ((l.map fun g =>
            slackSum t root g.resources g.required_traits us).filter
          fun q => decide (0 < q)) := by
  intro l
  induction l with
  | nil => intro _; rfl
  | cons g rest ih =>
    intro h
    have hg := h g (List.mem_cons_self g rest)
    have hrest := fun g' hg' => h g' (List.mem_cons_of_mem g hg')
    simp only [List.map_cons, List.filterMap_cons, List.filter_cons]
    rw [groupSlack_eq_fin t root g.resources g.required_traits us hg]
    by_cases hpos : 0 < slackSum t root g.resources g.required_traits us
    · simp only [slackPosVal, if_pos hpos, ih hrest]
      simp [hpos]
    · simp only [slackPosVal, if_neg hpos, ih hrest]
      simp [hpos]

theorem weighObject_sumFit (root : String) (raws : List RawGroup)
    (pred : String → Bool) (t : PTree) (us : Usages)
    (h : extractAccelGroups pred raws ≠ []) :
    weighObject (some root) raws pred (some (t, us)) .sumFit
      = .val ((((extractAccelGroups pred raws).map fun g =>
          slackSum t root g.resources g.required_traits us).filter
            fun q => decide (0 < q)).sum) := by
  simp only [weighObject, List.isEmpty_iff, h, if_false,
    slacks_any_unmet_false pred raws t root us, Bool.false_eq_true]
  rw [filterMap_slackPos t root us (extractAccelGroups pred raws)
    (fun g hg => extract_resources_ne_nil pred raws g hg)]

theorem groupProductGo_mono (t ts : PTree) (root : String)
    (req : List String) (us uss : Usages)
    (hS : ∀ rc, sumFreeForRcWithTraits t root rc req us
      ≤ sumFreeForRcWithTraits ts root rc req uss) :
    ∀ (res : List (String × ℤ)) (prod prods : ℚ), 0 ≤ prod → prod ≤ prods →
      groupProductGo t root req us res prod
        ≤ groupProductGo ts root req uss res prods := by
  intro res
  induction res with
  | nil => intro prod prods _ hle; exact hle
  | cons p rest ih =>
    intro prod prods h0 hle
    unfold groupProductGo
    simp only
    have hsl : sumFreeForRcWithTraits t root p.1 req us - (p.2 : ℚ)
        ≤ sumFreeForRcWithTraits ts root p.1 req uss - (p.2 : ℚ) :=
      sub_le_sub_right (hS p.1) _
    by_cases hs : sumFreeForRcWithTraits ts root p.1 req uss - (p.2 : ℚ) < 0
    · rw [if_pos hs, if_pos (lt_of_le_of_lt hsl hs)]
    · rw [if_neg hs]
      by_cases hs2 : sumFreeForRcWithTraits t root p.1 req us - (p.2 : ℚ) < 0
      · rw [if_pos hs2]
        refine groupProductGo_nonneg ts root req uss rest _ ?_
        have hEPS : (0 : ℚ) ≤ EPS := by norm_num [EPS]
        have : (0 : ℚ) ≤ prods := le_trans h0 hle
        have := not_lt.mp hs
        nlinarith
      · rw [if_neg hs2]
        refine ih _ _ ?_ ?_
        · have hEPS : (0 : ℚ) ≤ EPS := by norm_num [EPS]
          have := not_lt.mp hs2
          nlinarith
        · have hEPS : (0 : ℚ) ≤ EPS := by norm_num [EPS]
          have h1 := not_lt.mp hs2
          have h2 : (0 : ℚ) ≤ prods := le_trans h0 hle
          nlinarith

theorem provContrib_mono_pointwise (t ts : PTree) (root p rc0 : String)
    (us uss : Usages) (pd pds : ProviderData)
    (hdata : ∀ u, u ≠ p → ts.data u = t.data u)
    (husage : ∀ u rc, ¬(u = p ∧ rc = rc0) → uss u rc = us u rc)
    (hp : t.data p = some pd) (hps : ts.data p = some pds)
    (htr : pds.traits = pd.traits)
    (hinv : ∀ rc, rc ≠ rc0 → pds.inventory rc = pd.inventory rc)
    (hfree : getFreeForRcFromTree t p rc0 us
      ≤ getFreeForRcFromTree ts p rc0 uss)
    (rc : String) (req : List String) (u : String) :
    provContrib t root rc req us u ≤ provContrib ts root rc req uss u := by
  by_cases hup : u = p
  · subst hup
    by_cases hrc : rc = rc0
    · subst hrc
      by_cases hur : u = root
      · subst hur
        rw [provContrib_eq_zero_root, provContrib_eq_zero_root]
      · rcases htrb : (!req.isEmpty && !traitsSubset req pd.traits) with _ | _
        · rw [provContrib_eq_getFree t root rc req us u pd hur hp htrb,
            provContrib_eq_getFree ts root rc req uss u pds hur hps
              (by rw [htr]; exact htrb)]
          exact hfree
        · rw [provContrib_eq_zero_traits t root rc req us u pd hur hp htrb,
            provContrib_eq_zero_traits ts root rc req uss u pds hur hps
              (by rw [htr]; exact htrb)]
    · refine le_of_eq (provContrib_congr_parts t ts root u rc req us uss
        pd pds hp hps htr (hinv rc hrc) ?_).symm
      unfold usedOf
      rw [husage u rc fun h => hrc h.2]
  · refine le_of_eq (provContrib_congr t ts root u rc req us uss
      (hdata u hup) ?_).symm
    unfold usedOf
    rw [husage u rc fun h => hup h.1]

theorem sumFree_mono (t ts : PTree) (root p rc0 : String)
    (us uss : Usages) (pd pds : ProviderData)
    (huu : ts.uuids = t.uuids)
    (hdata : ∀ u, u ≠ p → ts.data u = t.data u)
    (husage : ∀ u rc, ¬(u = p ∧ rc = rc0) → uss u rc = us u rc)
    (hp : t.data p = some pd) (hps : ts.data p = some pds)
    (htr : pds.traits = pd.traits)
    (hinv : ∀ rc, rc ≠ rc0 → pds.inventory rc = pd.inventory rc)
    (hfree : getFreeForRcFromTree t p rc0 us
      ≤ getFreeForRcFromTree ts p rc0 uss)
    (rc : String) (req : List String) :
    sumFreeForRcWithTraits t root rc req us
      ≤ sumFreeForRcWithTraits ts root rc req uss := by
  by_cases h : t.uuids.contains root = true
  · rw [sumFree_eq_of_root t root rc req us h,
      sumFree_eq_of_root ts root rc req uss (by rw [huu]; exact h), huu]
    exact List.sum_le_sum fun u _ =>
      provContrib_mono_pointwise t ts root p rc0 us uss pd pds
        hdata husage hp hps htr hinv hfree rc req u
  · rw [sumFree_eq_zero_of_no_root t root rc req us h,
      sumFree_eq_zero_of_no_root ts root rc req uss (by rw [huu]; exact h)]

/-- Claim C6: for a fixed demand group, increasing a single provider's
free units for one resource class (raising its total, lowering its
usage, or anything else that does not decrease that provider's free
units, everything else unchanged) can only increase or leave unchanged
both the group's slack sum and its group product. -/
theorem slack_product_monotone (t ts : PTree) (root p rc0 : String)
    (us uss : Usages) (pd pds : ProviderData)
    (huu : ts.uuids = t.uuids)
    (hdata : ∀ u, u ≠ p → ts.data u = t.data u)
    (husage : ∀ u rc, ¬(u = p ∧ rc = rc0) → uss u rc = us u rc)
    (hp : t.data p = some pd) (hps : ts.data p = some pds)
    (htr : pds.traits = pd.traits)
    (hinv : ∀ rc, rc ≠ rc0 → pds.inventory rc = pd.inventory rc)
    (hfree : getFreeForRcFromTree t p rc0 us
      ≤ getFreeForRcFromTree ts p rc0 uss)
    (res : List (String × ℤ)) (req : List String) :
    slackSum t root res req us ≤ slackSum ts root res req uss
    ∧ groupProduct t root res req us ≤ groupProduct ts root res req uss := by
  have hS : ∀ rc, sumFreeForRcWithTraits t root rc req us
      ≤ sumFreeForRcWithTraits ts root rc req uss := fun rc =>
    sumFree_mono t ts root p rc0 us uss pd pds huu hdata husage hp hps
      htr hinv hfree rc req
  constructor
  · exact List.sum_le_sum fun q _ => sub_le_sub_right (hS q.1) _
  · exact groupProductGo_mono t ts root req us uss hS res 1 1
      (by norm_num) (le_refl 1)

theorem slack_product_monotone_witness :
    getFreeForRcFromTree t6 "rp1" "FPGA" us6
      ≤ getFreeForRcFromTree t6s "rp1" "FPGA" us6
    ∧ slackSum t6 "root" [("FPGA", 1)] [] us6
      ≤ slackSum t6s "root" [("FPGA", 1)] [] us6
    ∧ groupProduct t6 "root" [("FPGA", 1)] [] us6
      ≤ groupProduct t6s "root" [("FPGA", 1)] [] us6 := by
  have hv1 : getFreeForRcFromTree t6 "rp1" "FPGA" us6 = 2 := by
    rw [getFree_eq_of_found t6 "rp1" "FPGA" us6 pd6 inv6 rfl rfl]
    norm_num [usedOf, us6, inv6]
  have hv2 : getFreeForRcFromTree t6s "rp1" "FPGA" us6 = 3 := by
    rw [getFree_eq_of_found t6s "rp1" "FPGA" us6 pd6s inv6s rfl rfl]
    norm_num [usedOf, us6, inv6s]
  have hfree : getFreeForRcFromTree t6 "rp1" "FPGA" us6
      ≤ getFreeForRcFromTree t6s "rp1" "FPGA" us6 := by
    rw [hv1, hv2]; norm_num
  have hdata : ∀ u, u ≠ "rp1" → t6s.data u = t6.data u := by
    intro u hu
    simp [t6, t6s, hu]
  have hmain := slack_product_monotone t6 t6s "root" "rp1" "FPGA" us6 us6
    pd6 pd6s rfl hdata (fun u rc _ => rfl) rfl rfl rfl
    (fun rc hrc => by simp [pd6, pd6s, hrc]) hfree [("FPGA", 1)] []
  exact ⟨hfree, hmain.1, hmain.2⟩

/-- Claim C7: a scoring call with no resolvable root provider, or with
an empty extracted group list, returns exactly `0` (the neutral value),
never the UNMET sentinel; and every extracted group has a non-empty
resources map, so its group slack is never the UNMET sentinel — an
empty-resources raw group is dropped before the sentinel check can see
it. -/
theorem score_zero_on_degenerate (raws : List RawGroup)
    (pred : String → Bool) (fetch : Option (PTree × Usages))
    (policy : Policy) :
    weighObject none raws pred fetch policy = Score.val 0
    ∧ (∀ root, extractAccelGroups pred raws = [] →
        weighObject (some root) raws pred fetch policy = Score.val 0)
    ∧ (∀ (t : PTree) (root : String) (us : Usages) (g : DemandGroup),
        g ∈ extractAccelGroups pred raws →
        groupSlack t root g.resources g.required_traits us
          ≠ SlackVal.unmet) :=
  ⟨weighObject_none raws pred fetch policy,
   fun root h => weighObject_no_groups root raws pred fetch policy h,
   fun t root us g hg =>
     groupSlack_not_unmet_of_extracted pred raws g hg t root us⟩

theorem score_zero_on_degenerate_witness :
    weighObject none cRaws rcPatternMatch none Policy.sumFit = Score.val 0
    ∧ weighObject (some "root") [] rcPatternMatch none Policy.sumFit
        = Score.val 0 :=
  ⟨(score_zero_on_degenerate cRaws rcPatternMatch none Policy.sumFit).1,
   (score_zero_on_degenerate [] rcPatternMatch none Policy.sumFit).2.1
     "root" (by rfl)⟩

/-- Claim C9: the scorer returns either the UNMET sentinel or a finite
value that is at least `0`; the degenerate paths (no root, no tree)
return exactly `0`.  A finite negative host score is never returned. -/
theorem score_unmet_or_nonneg (rootOpt : Option String)
    (raws : List RawGroup) (pred : String → Bool)
    (fetch : Option (PTree × Usages)) (policy : Policy) :
    (weighObject rootOpt raws pred fetch policy = Score.unmet
      ∨ ∃ q : ℚ, weighObject rootOpt raws pred fetch policy = Score.val q
          ∧ 0 ≤ q)
    ∧ weighObject none raws pred fetch policy = Score.val 0
    ∧ (∀ root, weighObject (some root) raws pred none policy
        = Score.val 0) := by
  refine ⟨?_, weighObject_none raws pred fetch policy,
    fun root => weighObject_no_fetch root raws pred policy⟩
  cases rootOpt with
  | none => exact Or.inr ⟨0, rfl, le_refl 0⟩
  | some root =>
    by_cases h : extractAccelGroups pred raws = []
    · exact Or.inr ⟨0, weighObject_no_groups root raws pred fetch policy h,
        le_refl 0⟩
    · cases fetch with
      | none =>
        exact Or.inr ⟨0, weighObject_no_fetch root raws pred policy,
          le_refl 0⟩
      | some tu =>
        obtain ⟨t, us⟩ := tu
        cases policy with
        | sumFit =>
          refine Or.inr ⟨_, weighObject_sumFit root raws pred t us h, ?_⟩
          refine List.sum_nonneg fun x hx => ?_
          have hpos : 0 < x := of_decide_eq_true (List.mem_filter.mp hx).2
          linarith
        | productFit =>
          refine Or.inr ⟨_, weighObject_productFit root raws pred t us h, ?_⟩
          refine List.sum_nonneg fun x hx => ?_
          rcases List.mem_map.mp hx with ⟨g, _, rfl⟩
          exact groupProduct_nonneg t root g.resources g.required_traits us

theorem score_unmet_or_nonneg_witness :
    weighObject (some "root") wRaws rcPatternMatch (some (wTree, wUsages))
        Policy.sumFit = Score.unmet
    ∨ ∃ q : ℚ, weighObject (some "root") wRaws rcPatternMatch
        (some (wTree, wUsages)) Policy.sumFit = Score.val q ∧ 0 ≤ q :=
  (score_unmet_or_nonneg (some "root") wRaws rcPatternMatch
    (some (wTree, wUsages)) Policy.sumFit).1

/-- Claim C3: under sum-fit with no group at the UNMET sentinel, the
host score is the sum of the group slacks over exactly the groups whose
slack is strictly positive, and each extracted group's slack is the
finite signed sum of its per-class slacks (total free minus required
amount for each class). -/
theorem sum_fit_score_characterization (root : String)
    (raws : List RawGroup) (pred : String → Bool) (t : PTree)
    (us : Usages) (h : extractAccelGroups pred raws ≠ []) :
    weighObject (some root) raws pred (some (t, us)) Policy.sumFit
      = Score.val ((((extractAccelGroups pred raws).map fun g =>
          slackSum t root g.resources g.required_traits us).filter
            fun q => decide (0 < q)).sum)
    ∧ ∀ g ∈ extractAccelGroups pred raws,
        groupSlack t root g.resources g.required_traits us
          = SlackVal.fin ((g.resources.map fun p =>
              sumFreeForRcWithTraits t root p.1 g.required_traits us
                - (p.2 : ℚ)).sum) :=
  ⟨weighObject_sumFit root raws pred t us h,
   fun g hg => groupSlack_eq_fin t root g.resources g.required_traits us
     (extract_resources_ne_nil pred raws g hg)⟩

theorem sum_fit_score_characterization_witness :
    extractAccelGroups rcPatternMatch wRaws ≠ []
    ∧ weighObject (some "root") wRaws rcPatternMatch
        (some (wTree, wUsages)) Policy.sumFit
      = Score.val ((((extractAccelGroups rcPatternMatch wRaws).map fun g =>
          slackSum wTree "root" g.resources g.required_traits wUsages).filter
            fun q => decide (0 < q)).sum) :=
  ⟨by decide,
   (sum_fit_score_characterization "root" wRaws rcPatternMatch wTree
     wUsages (by decide)).1⟩

theorem wSumFree_val :
    sumFreeForRcWithTraits wTree "root" "AICHIP" ["CUSTOM_FURIOSA_0000"]
      wUsages = 3 := by
  rw [sumFree_eq_of_root wTree "root" "AICHIP" ["CUSTOM_FURIOSA_0000"]
    wUsages (by decide)]
  have huuids : wTree.uuids = ["root", "rp1"] := rfl
  rw [huuids]
  simp only [List.map_cons, List.map_nil, List.sum_cons, List.sum_nil,
    add_zero]
  rw [provContrib_eq_zero_root]
  rw [provContrib_eq_getFree wTree "root" "AICHIP" ["CUSTOM_FURIOSA_0000"]
    wUsages "rp1" wPd (by decide) rfl (by decide)]
  rw [getFree_eq_of_found wTree "rp1" "AICHIP" wUsages wPd wInv rfl rfl]
  norm_num [usedOf, wUsages, wInv]

theorem wSlackSum_val :
    slackSum wTree "root" [("AICHIP", 2)] ["CUSTOM_FURIOSA_0000"] wUsages
      = 1 := by
  norm_num [slackSum, wSumFree_val]

theorem wGroupProduct_val :
    groupProduct wTree "root" [("AICHIP", 2)] ["CUSTOM_FURIOSA_0000"]
      wUsages = 1 + EPS := by
  simp only [groupProduct, groupProductGo, wSumFree_val]
  norm_num [EPS]

/-- Claim C8: on a tree with one non-root provider having
`AICHIP: {total: 4, reserved: 0}`, usage `{AICHIP: 1}` and trait
`CUSTOM_FURIOSA_0000`, with one demand group requiring `{AICHIP: 2}`
under that required trait: total free is `3`, the group slack is `1`,
the sum-fit host score is `1`, and the product-fit host score is
`1 + 1e-6`. -/
theorem scenario_single_provider :
    sumFreeForRcWithTraits wTree "root" "AICHIP" ["CUSTOM_FURIOSA_0000"]
        wUsages = 3
    ∧ groupSlack wTree "root" [("AICHIP", 2)] ["CUSTOM_FURIOSA_0000"]
        wUsages = SlackVal.fin 1
    ∧ weighObject (some "root") wRaws rcPatternMatch (some (wTree, wUsages))
        Policy.sumFit = Score.val 1
    ∧ weighObject (some "root") wRaws rcPatternMatch (some (wTree, wUsages))
        Policy.productFit = Score.val (1 + EPS) := by
  have hext : extractAccelGroups rcPatternMatch wRaws
      = [⟨[("AICHIP", 2)], ["CUSTOM_FURIOSA_0000"]⟩] := by decide
  have hne : extractAccelGroups rcPatternMatch wRaws ≠ [] := by
    rw [hext]; simp
  refine ⟨wSumFree_val, ?_, ?_, ?_⟩
  · rw [groupSlack_eq_fin wTree "root" [("AICHIP", 2)]
      ["CUSTOM_FURIOSA_0000"] wUsages (by simp), wSlackSum_val]
  · rw [weighObject_sumFit "root" wRaws rcPatternMatch wTree wUsages hne,
      hext]
    simp [wSlackSum_val]
  · rw [weighObject_productFit "root" wRaws rcPatternMatch wTree wUsages
      hne, hext]
    simp [wGroupProduct_val]

theorem cSumFree_val :
    sumFreeForRcWithTraits cTree "root" "FPGA" [] cUsages = 10 := by
  rw [sumFree_eq_of_root cTree "root" "FPGA" [] cUsages (by decide)]
  have huuids : cTree.uuids = ["root", "rp1"] := rfl
  rw [huuids]
  simp only [List.map_cons, List.map_nil, List.sum_cons, List.sum_nil,
    add_zero]
  rw [provContrib_eq_zero_root]
  rw [provContrib_eq_getFree cTree "root" "FPGA" [] cUsages "rp1" cPd
    (by decide) rfl (by decide)]
  rw [getFree_eq_of_found cTree "rp1" "FPGA" cUsages cPd cInv rfl rfl]
  norm_num [usedOf, cUsages, cInv]

theorem cGroupProductUnmet :
    groupProduct cTree "root" [("FPGA", 13)] [] cUsages = 0 := by
  simp only [groupProduct, groupProductGo, cSumFree_val]
  norm_num

theorem cGroupProductMet :
    groupProduct cTree "root" [("FPGA", 5)] [] cUsages = 5 + EPS := by
  simp only [groupProduct, groupProductGo, cSumFree_val]
  norm_num [EPS]

/-- Claim C1 as stated is false on the code: under product-fit, with a
resolvable root and two extracted demand groups of which one has
group product `0` (class slack `-3`), the host score is the sum of the
group products (`5 + 1e-6`), not the UNMET sentinel — the only UNMET
branch in `_weigh_object` tests `group_slack == UNMET_FLOOR`, which no
extracted group can reach. -/
theorem product_fit_unmet_counterexample :
    groupProduct cTree "root" [("FPGA", 13)] [] cUsages = 0
    ∧ weighObject (some "root") cRaws rcPatternMatch
        (some (cTree, cUsages)) Policy.productFit = Score.val (5 + EPS)
    ∧ weighObject (some "root") cRaws rcPatternMatch
        (some (cTree, cUsages)) Policy.productFit ≠ Score.unmet := by
  have hext : extractAccelGroups rcPatternMatch cRaws
      = [⟨[("FPGA", 5)], []⟩, ⟨[("FPGA", 13)], []⟩] := by decide
  have hne : extractAccelGroups rcPatternMatch cRaws ≠ [] := by
    rw [hext]; simp
  have hval : weighObject (some "root") cRaws rcPatternMatch
      (some (cTree, cUsages)) Policy.productFit = Score.val (5 + EPS) := by
    rw [weighObject_productFit "root" cRaws rcPatternMatch cTree cUsages
      hne, hext]
    simp [cGroupProductMet, cGroupProductUnmet]
  refine ⟨cGroupProductUnmet, hval, ?_⟩
  rw [hval]
  intro h
  cases h

/-- Claim C1 (amended): under product-fit with a resolvable root and a
non-empty extracted group list, the host score equals the sum of all
groups' products — a group whose group product is `0` (some class with
negative slack) contributes `0` to that sum — and the score is never the
UNMET sentinel. -/
theorem product_fit_score_sums_products (root : String)
    (raws : List RawGroup) (pred : String → Bool) (t : PTree)
    (us : Usages) (h : extractAccelGroups pred raws ≠ []) :
    weighObject (some root) raws pred (some (t, us)) Policy.productFit
      = Score.val (((extractAccelGroups pred raws).map fun g =>
          groupProduct t root g.resources g.required_traits us).sum)
    ∧ weighObject (some root) raws pred (some (t, us)) Policy.productFit
      ≠ Score.unmet := by
  refine ⟨weighObject_productFit root raws pred t us h, ?_⟩
  rw [weighObject_productFit root raws pred t us h]
  intro hc
  cases hc

theorem product_fit_score_sums_products_witness :
    extractAccelGroups rcPatternMatch cRaws ≠ []
    ∧ weighObject (some "root") cRaws rcPatternMatch
        (some (cTree, cUsages)) Policy.productFit
      = Score.val (((extractAccelGroups rcPatternMatch cRaws).map fun g =>
          groupProduct cTree "root" g.resources g.required_traits
            cUsages).sum) :=
  ⟨by decide,
   (product_fit_score_sums_products "root" cRaws rcPatternMatch cTree
     cUsages (by decide)).1⟩

/-- Claim C2 as stated is false on the code: a matching entry with
amount `0` (non-positive) is retained by extraction, not dropped — the
extracted group `{FPGA: 0}` is non-empty, so the raw group is kept, and
the extracted amount is not a positive integer. -/
theorem extraction_nonpositive_counterexample :
    extractAccelGroups rcPatternMatch [⟨[("FPGA", Amount.ofInt 0)], []⟩]
      = [⟨[("FPGA", 0)], []⟩]
    ∧ ((extractAccelGroups rcPatternMatch
        [⟨[("FPGA", Amount.ofInt 0)], []⟩]).all
          fun g => g.resources.all fun p => decide (0 < p.2)) = false := by
  decide

/-- Claim C2 (amended): extraction retains exactly the resource-class
entries whose class name matches the predicate and whose amount `int()`
converts (integers; floats, truncated toward zero; numeric strings);
entries on which `int()` raises are dropped (counted for diagnostics,
never raised).  Retained amounts are integers but need not be positive:
zero and negative amounts are kept. -/
theorem extraction_retains_matching_convertible (pred : String → Bool)
    (res : List (String × Amount)) (rc : String) (n : ℤ) :
    (rc, n) ∈ extractGroupResources pred res
      ↔ pred rc = true ∧ ∃ a, (rc, a) ∈ res ∧ amountToInt a = some n :=
  mem_extractGroupResources pred res rc n

theorem extraction_retains_matching_convertible_witness :
    (("FPGA", (3 : ℤ)) ∈
        extractGroupResources rcPatternMatch [("FPGA", Amount.ofInt 3)]
      ↔ rcPatternMatch "FPGA" = true
        ∧ ∃ a, ("FPGA", a) ∈ [("FPGA", Amount.ofInt 3)]
            ∧ amountToInt a = some 3) :=
  extraction_retains_matching_convertible rcPatternMatch
    [("FPGA", Amount.ofInt 3)] "FPGA" 3

/-- Claim C5: with a non-empty required-trait set, a non-root provider
whose trait set does not contain every required trait contributes
exactly `0` to the total; the total sums free units exactly over the
non-root providers that hold an inventory entry for the class and
satisfy all required traits; and the total is never negative. -/
theorem trait_and_semantics (t : PTree) (root rc : String)
    (req : List String) (us : Usages)
    (hne : req ≠ []) (hroot : t.uuids.contains root = true) :
    (∀ u pd, u ≠ root → t.data u = some pd →
        traitsSubset req pd.traits = false →
        provContrib t root rc req us u = 0)
    ∧ sumFreeForRcWithTraits t root rc req us
        = ((t.uuids.filter (qualifiesForRc t root rc req)).map
            fun u => getFreeForRcFromTree t u rc us).sum
    ∧ 0 ≤ sumFreeForRcWithTraits t root rc req us := by
  refine ⟨?_, ?_, sumFree_nonneg t root rc req us⟩
  · intro u pd hu hd hsub
    refine provContrib_eq_zero_traits t root rc req us u pd hu hd ?_
    have hE : req.isEmpty = false := by
      cases req with
      | nil => cases hne rfl
      | cons a l => rfl
    rw [hE, hsub]
    rfl
  · rw [sumFree_eq_of_root t root rc req us hroot]
    exact sum_contrib_eq_filter t root rc req us t.uuids

theorem trait_and_semantics_witness :
    (["CUSTOM_FURIOSA_0000"] : List String) ≠ []
    ∧ wTree.uuids.contains "root" = true
    ∧ 0 ≤ sumFreeForRcWithTraits wTree "root" "AICHIP"
        ["CUSTOM_FURIOSA_0000"] wUsages :=
  ⟨by decide, by decide,
   (trait_and_semantics wTree "root" "AICHIP" ["CUSTOM_FURIOSA_0000"]
     wUsages (by decide) (by decide)).2.2⟩

end AccelWeigher
